import Mathlib

/-!
Shallow embedding of the `httpx` Go package (`src/request.go`).

The package is a thin HTTP helper: five verb entry points (Get, Post, Put,
Delete, Patch) forward to `performRequest`, which normalizes options, builds
the outbound request (JSON body, headers via `http.Header.Set`, query string
via `serializeToQueryString`), submits it through the client, validates the
status code, and decodes the JSON response body into the caller's type.

Modelling choices, each noted at the definition it concerns:
- Go `interface\x7b\x7d` values that travel through `encoding/json` are
  modelled by the inductive `Json` below; JSON numbers are modelled as
  integers (Go decodes them to float64; for integral values `fmt.Sprint`
  prints the plain decimal form, which is what the model's `toString` gives).
- The transport (`http.Client.Do`, together with the request context) is a
  function from the built request to a response or a transport error.
- The generic result type `T` of `json.Decoder.Decode` is modelled by a
  caller-supplied conversion `Json → Except String T`; the tokenizing layer
  (is there a JSON value in the body at all?) is modelled concretely by a
  fuel-based parser, so that the EOF behaviour on an empty body is faithful.
-/

namespace Httpx

/-- JSON values as produced by `json.Marshal`/consumed by `json.Unmarshal`.
Numbers are modelled as integers (see the header comment). -/
inductive Json : Type where
  | null : Json
  | bool (b : Bool) : Json
  | num (n : Int) : Json
  | str (s : String) : Json
  | arr (xs : List Json) : Json
  | obj (fields : List (String × Json)) : Json

/-- Is this JSON value `null`? After `json.Unmarshal` into
`interface\x7b\x7d`, exactly the JSON `null` becomes a nil interface, which
is what the query loop's `value != nil` test checks. -/
def Json.isNull : Json → Bool
  | Json.null => true
  | _ => false

/-- Whitespace bytes skipped by `encoding/json`. -/
def jsonWs (c : Char) : Bool :=
  c = ' ' || c = '\t' || c = '\n' || c = '\r'

/-- Hexadecimal digit character (uppercase), as used by `net/url` escaping. -/
def hexDigitChar (n : Nat) : Char :=
  if n < 10 then Char.ofNat (48 + n) else Char.ofNat (55 + n)

/-- UTF-8 byte sequence of a character (Go strings are UTF-8 bytes and
`url.QueryEscape` escapes byte by byte). -/
def utf8Bytes (c : Char) : List Nat :=
  let n := c.toNat
  if n < 128 then [n]
  else if n < 2048 then [192 + n / 64, 128 + n % 64]
  else if n < 65536 then [224 + n / 4096, 128 + (n / 64) % 64, 128 + n % 64]
  else [240 + n / 262144, 128 + (n / 4096) % 64, 128 + (n / 64) % 64, 128 + n % 64]

/-- Bytes left unescaped by `url.QueryEscape`: alphanumerics and `-_.~`. -/
def isUnreservedQueryByte (b : Nat) : Bool :=
  (48 ≤ b && b ≤ 57) || (65 ≤ b && b ≤ 90) || (97 ≤ b && b ≤ 122) ||
    b = 45 || b = 95 || b = 46 || b = 126

/-- Escape one byte the way `url.QueryEscape` does: unreserved bytes kept,
space becomes `+`, everything else percent-encoded with uppercase hex. -/
def queryEscapeByte (b : Nat) : String :=
  if isUnreservedQueryByte b then String.singleton (Char.ofNat b)
  else if b = 32 then "+"
  else String.mk ['%', hexDigitChar (b / 16), hexDigitChar (b % 16)]

/-- Model of Go `url.QueryEscape`. -/
def queryEscape (s : String) : String :=
  String.join ((s.data.flatMap utf8Bytes).map queryEscapeByte)

/-- Lexicographic order on character lists. Go's `sort.Strings` compares
strings byte-wise; UTF-8 byte order agrees with code-point order, so the
character-list order is the same relation. -/
def charListLe : List Char → List Char → Bool
  | [], _ => true
  | _ :: _, [] => false
  | a :: as, b :: bs => if a = b then charListLe as bs else decide (a < b)

/-- String order used by `sort.Strings` inside `url.Values.Encode` (and by
`fmt` when printing maps). -/
def strLe (a b : String) : Bool :=
  charListLe a.data b.data

/-- Comparison on string-keyed pairs: key order. -/
def keyLe {α : Type} (a b : String × α) : Bool :=
  strLe a.1 b.1

/-- Insert a pair into a key-sorted list (insertion sort step). -/
def insertPair {α : Type} (x : String × α) : List (String × α) → List (String × α)
  | [] => [x]
  | y :: ys => if keyLe x y then x :: y :: ys else y :: insertPair x ys

/-- Sort string-keyed pairs by key, as `url.Values.Encode` sorts its keys. -/
def sortPairs {α : Type} : List (String × α) → List (String × α)
  | [] => []
  | x :: xs => insertPair x (sortPairs xs)

mutual

/-- Model of Go `fmt.Sprint` applied to a value freshly produced by
`json.Unmarshal` into `interface\x7b\x7d` (so: nil, bool, float64 — modelled
integral — string, slice, or string-keyed map; `fmt` prints maps with sorted
keys). -/
def jsonSprint : Json → String
  | Json.null => "<nil>"
  | Json.bool b => if b then "true" else "false"
  | Json.num n => toString n
  | Json.str s => s
  | Json.arr xs => "[" ++ String.intercalate " " (jsonSprintList xs) ++ "]"
  | Json.obj fs =>
      "map[" ++
        String.intercalate " "
          ((sortPairs (jsonSprintPairs fs)).map (fun kv => kv.1 ++ ":" ++ kv.2)) ++
        "]"

/-- Pointwise `fmt.Sprint` over the elements of a slice. -/
def jsonSprintList : List Json → List String
  | [] => []
  | x :: xs => jsonSprint x :: jsonSprintList xs

/-- Pointwise `fmt.Sprint` over the values of a map's entries. -/
def jsonSprintPairs : List (String × Json) → List (String × String)
  | [] => []
  | (k, v) :: xs => (k, jsonSprint v) :: jsonSprintPairs xs

end

/-- Last-occurrence-wins deduplication of object fields: `json.Unmarshal`
of an object into `map[string]interface\x7b\x7d` keeps the last value
written for each key. -/
def dedupKeepLast : List (String × Json) → List (String × Json)
  | [] => []
  | (k, v) :: rest =>
      if k ∈ rest.map Prod.fst then dedupKeepLast rest
      else (k, v) :: dedupKeepLast rest

/-- The `key=stringified value` pairs the query loop feeds into `url.Values`,
in the order `Encode` emits them: the unmarshalled map's entries (last
occurrence wins), nil values skipped, values printed with `fmt.Sprint`,
sorted by key. -/
def queryPairs (fields : List (String × Json)) : List (String × String) :=
  sortPairs
    (((dedupKeepLast fields).filter (fun kv => !(kv.2.isNull))).map
      (fun kv => (kv.1, jsonSprint kv.2)))

/-- Model of `url.Values.Encode`: escaped `k=v` pairs joined with `&`. -/
def encodePairs (ps : List (String × String)) : String :=
  String.intercalate "&" (ps.map (fun kv => queryEscape kv.1 ++ "=" ++ queryEscape kv.2))

/-- Go type-name used in the `json.Unmarshal` error message for each JSON
value kind that cannot populate a `map[string]interface\x7b\x7d`. -/
def jsonUnmarshalKind : Json → String
  | Json.null => "null"
  | Json.bool _ => "bool"
  | Json.num _ => "number"
  | Json.str _ => "string"
  | Json.arr _ => "array"
  | Json.obj _ => "object"

/-- Model of `serializeToQueryString`. The argument is the JSON value the
query marshals to (`none` models a nil `interface\x7b\x7d`). A JSON object
round-trips into the map and is encoded; JSON `null` unmarshals into a map
by setting it to nil — no error — so the loop runs zero times and `Encode`
yields the empty string; every other kind makes `json.Unmarshal` fail, which
the function wraps as a query-serialization error. (`json.Marshal` of a
`Json` value never fails, so the marshal error branch is not representable.) -/
def serializeToQueryString : Option Json → Except String String
  | none => Except.ok ""
  | some (Json.obj fields) => Except.ok (encodePairs (queryPairs fields))
  | some Json.null => Except.ok ""
  | some q =>
      Except.error
        ("failed to unmarshal query: json: cannot unmarshal " ++ jsonUnmarshalKind q ++
          " into Go value of type map[string]interface \x7b\x7d")

/-- Valid bytes of a MIME header field name (the token characters accepted
by `net/textproto`): alphanumerics and the specials of RFC 7230 tokens.
Characters outside ASCII are not valid header field bytes. -/
def validHeaderFieldChar (c : Char) : Bool :=
  c.isAlphanum || c = '!' || c = '#' || c = '$' || c = '%' || c = '&' ||
    c = '\x27' || c = '*' || c = '+' || c = '-' || c = '.' || c = '^' ||
    c = '_' || c = '\x60' || c = '|' || c = '~'

/-- Character-wise canonicalization: uppercase at the start and after each
hyphen, lowercase elsewhere. -/
def canonChars : Bool → List Char → List Char
  | _, [] => []
  | upper, c :: cs =>
      (if upper then c.toUpper else c.toLower) :: canonChars (c = '-') cs

/-- Model of `textproto.CanonicalMIMEHeaderKey`, which `http.Header.Set`
applies to the header name: if every character is a valid header field
byte the name is canonicalized (first letter and letters after `-`
uppercased, the rest lowercased); otherwise it is returned unchanged. -/
def canonicalMIMEHeaderKey (s : String) : String :=
  if s.data.all validHeaderFieldChar then String.mk (canonChars true s.data) else s

/-- Model of `http.Header.Set` on a header map represented as an
association list with canonical keys: replace the entry for the
canonicalized key, or append one. -/
def headerSet (hs : List (String × String)) (k v : String) : List (String × String) :=
  let ck := canonicalMIMEHeaderKey k
  if hs.any (fun kv => kv.1 == ck) then
    hs.map (fun kv => if kv.1 == ck then (ck, v) else kv)
  else hs ++ [(ck, v)]

/-- JSON string literal rendering with minimal escaping. -/
def jsonRenderString (s : String) : String :=
  "\"" ++ String.join (s.data.map (fun c =>
    if c = '"' then "\\\"" else if c = '\\' then "\\\\" else String.singleton c)) ++ "\""

mutual

/-- Model of `json.Marshal` on `Json` values (object fields are emitted in
the given order; string escaping is modelled for quote and backslash, the
two classes the claims can meet). `json.Marshal` never fails on these
values, so the result is a plain string. -/
def jsonRender : Json → String
  | Json.null => "null"
  | Json.bool b => if b then "true" else "false"
  | Json.num n => toString n
  | Json.str s => jsonRenderString s
  | Json.arr xs => "[" ++ String.intercalate "," (jsonRenderList xs) ++ "]"
  | Json.obj fs => "\x7b" ++ String.intercalate "," (jsonRenderPairs fs) ++ "\x7d"

/-- Pointwise `json.Marshal` over slice elements. -/
def jsonRenderList : List Json → List String
  | [] => []
  | x :: xs => jsonRender x :: jsonRenderList xs

/-- Pointwise `json.Marshal` over object fields. -/
def jsonRenderPairs : List (String × Json) → List String
  | [] => []
  | (k, v) :: xs => (jsonRenderString k ++ ":" ++ jsonRender v) :: jsonRenderPairs xs

end

/-- Model of `serializeToReader`: a nil body yields a nil reader (no entity
payload); otherwise the payload is the marshalled JSON bytes. -/
def serializeToReader : Option Json → Option String
  | none => none
  | some d => some (jsonRender d)

/-- Match a literal character sequence at the head of the input. -/
def parseLit : List Char → List Char → Option (List Char)
  | [], cs => some cs
  | _ :: _, [] => none
  | p :: ps, c :: cs => if c = p then parseLit ps cs else none

/-- Accumulate the decimal value of a digit run. -/
def digitsToNat (ds : List Char) : Nat :=
  ds.foldl (fun n c => n * 10 + (c.toNat - 48)) 0

/-- Parse the remainder of a JSON string literal (after the opening quote),
handling the simple escapes; unicode escapes are outside the model. -/
def parseStringChars : Nat → List Char → Except String (String × List Char)
  | 0, _ => Except.error "unexpected end of JSON input"
  | _ + 1, [] => Except.error "unexpected end of JSON input"
  | fuel + 1, c :: cs =>
    if c = '"' then Except.ok ("", cs)
    else if c = '\\' then
      match cs with
      | [] => Except.error "unexpected end of JSON input"
      | e :: cs2 =>
        let ec := if e = 'n' then '\n' else if e = 't' then '\t'
          else if e = 'r' then '\r' else e
        match parseStringChars fuel cs2 with
        | Except.ok (s, rest) => Except.ok (String.mk (ec :: s.data), rest)
        | Except.error m => Except.error m
    else
      match parseStringChars fuel cs with
      | Except.ok (s, rest) => Except.ok (String.mk (c :: s.data), rest)
      | Except.error m => Except.error m

mutual

/-- Parse one JSON value, as `json.Decoder.Decode` reads one value from the
response stream. An input with no value at all (empty or whitespace only)
fails with `EOF`, exactly the `io.EOF` the decoder reports. Numbers are
modelled as optionally signed integer literals. The fuel argument only
bounds recursion depth; it is chosen larger than the input needs. -/
def parseVal : Nat → List Char → Except String (Json × List Char)
  | 0, _ => Except.error "unexpected end of JSON input"
  | fuel + 1, cs0 =>
    let cs := cs0.dropWhile jsonWs
    match cs with
    | [] => Except.error "EOF"
    | c :: rest =>
      if c = 'n' then
        match parseLit ['u', 'l', 'l'] rest with
        | some r => Except.ok (Json.null, r)
        | none => Except.error "invalid character"
      else if c = 't' then
        match parseLit ['r', 'u', 'e'] rest with
        | some r => Except.ok (Json.bool true, r)
        | none => Except.error "invalid character"
      else if c = 'f' then
        match parseLit ['a', 'l', 's', 'e'] rest with
        | some r => Except.ok (Json.bool false, r)
        | none => Except.error "invalid character"
      else if c = '"' then
        match parseStringChars (rest.length + 1) rest with
        | Except.ok (s, r) => Except.ok (Json.str s, r)
        | Except.error m => Except.error m
      else if c = '[' then
        let rest2 := rest.dropWhile jsonWs
        match rest2 with
        | ']' :: r => Except.ok (Json.arr [], r)
        | _ => parseArrItems fuel rest2 []
      else if c = '\x7b' then
        let rest2 := rest.dropWhile jsonWs
        match rest2 with
        | '\x7d' :: r => Except.ok (Json.obj [], r)
        | _ => parseObjItems fuel rest2 []
      else if c = '-' then
        let ds := rest.takeWhile Char.isDigit
        let r := rest.dropWhile Char.isDigit
        if ds.isEmpty then Except.error "invalid character"
        else Except.ok (Json.num (-(digitsToNat ds : Int)), r)
      else if c.isDigit then
        let ds := cs.takeWhile Char.isDigit
        let r := cs.dropWhile Char.isDigit
        Except.ok (Json.num (digitsToNat ds), r)
      else Except.error "invalid character"

/-- Parse array elements after `[` (first element pending). -/
def parseArrItems : Nat → List Char → List Json → Except String (Json × List Char)
  | 0, _, _ => Except.error "unexpected end of JSON input"
  | fuel + 1, cs, acc =>
    match parseVal fuel cs with
    | Except.error m => Except.error m
    | Except.ok (v, rest) =>
      let rest2 := rest.dropWhile jsonWs
      match rest2 with
      | ',' :: rest3 => parseArrItems fuel rest3 (acc ++ [v])
      | ']' :: rest3 => Except.ok (Json.arr (acc ++ [v]), rest3)
      | _ => Except.error "invalid character"

/-- Parse object members after `\x7b` (first member pending). -/
def parseObjItems : Nat → List Char → List (String × Json) →
    Except String (Json × List Char)
  | 0, _, _ => Except.error "unexpected end of JSON input"
  | fuel + 1, cs, acc =>
    match cs.dropWhile jsonWs with
    | '"' :: rest =>
      match parseStringChars (rest.length + 1) rest with
      | Except.error m => Except.error m
      | Except.ok (k, rest2) =>
        match rest2.dropWhile jsonWs with
        | ':' :: rest3 =>
          match parseVal fuel rest3 with
          | Except.error m => Except.error m
          | Except.ok (v, rest4) =>
            match rest4.dropWhile jsonWs with
            | ',' :: rest5 => parseObjItems fuel rest5 (acc ++ [(k, v)])
            | '\x7d' :: rest5 => Except.ok (Json.obj (acc ++ [(k, v)]), rest5)
            | _ => Except.error "invalid character"
        | _ => Except.error "invalid character"
    | _ => Except.error "invalid character"

end

/-- Read one JSON value from a response body, as `json.NewDecoder(...).Decode`
does: data after the first value is left unread. -/
def parseJsonValue (s : String) : Except String Json :=
  match parseVal (s.length + 2) s.data with
  | Except.error m => Except.error m
  | Except.ok (j, _) => Except.ok j

/-- Model of `json.NewDecoder(resp.Body).Decode(&result)`: tokenize one JSON
value from the body, then populate the caller's type `T`; the reflection
step for the concrete `T` is the supplied `decodeT`. -/
def goJsonDecode {T : Type} (decodeT : Json → Except String T) (body : String) :
    Except String T :=
  match parseJsonValue body with
  | Except.error m => Except.error m
  | Except.ok j => decodeT j

/-- Parsed URL, as far as this package observes it: the part before the
query, the raw query, and the fragment. `url.Parse` splits the fragment off
at the first `#` and the raw query at the first `?` of what remains. -/
structure URLm : Type where
  base : String
  rawQuery : String
  fragment : String
deriving DecidableEq

/-- Split a character list at the first occurrence of a separator; the
separator is dropped. -/
def splitAtFirst (sep : Char) (cs : List Char) : List Char × Option (List Char) :=
  match cs with
  | [] => ([], none)
  | c :: rest =>
    if c = sep then ([], some rest)
    else
      match splitAtFirst sep rest with
      | (before, after) => (c :: before, after)

/-- Go rejects URLs containing ASCII control bytes. -/
def containsCtlChar (s : String) : Bool :=
  s.data.any (fun c => c.toNat < 32 || c.toNat = 127)

/-- Model of the slice of `url.Parse` this package observes: control bytes
are rejected; otherwise the fragment and raw query are split off. Other
parse failures of `net/url` (bad scheme, bad port, ...) are outside the
model. -/
def parseURL (s : String) : Except String URLm :=
  if containsCtlChar s then
    Except.error "net/url: invalid control character in URL"
  else
    match splitAtFirst '#' s.data with
    | (noFrag, frag) =>
      match splitAtFirst '?' noFrag with
      | (base, q) =>
        Except.ok
          { base := String.mk base,
            rawQuery := String.mk (q.getD []),
            fragment := String.mk (frag.getD []) }

/-- Model of `url.URL.String` for the observed fields: base, then `?query`
when the raw query is nonempty, then `#fragment` when nonempty. -/
def urlString (u : URLm) : String :=
  u.base ++ (if u.rawQuery = "" then "" else "?" ++ u.rawQuery) ++
    (if u.fragment = "" then "" else "#" ++ u.fragment)

/-- The outbound `http.Request`, as far as this package builds and observes
it: verb, parsed URL, header map (canonical keys), and entity body bytes
(`none` models a nil body reader). -/
structure Request : Type where
  method : String
  url : URLm
  headers : List (String × String)
  body : Option String
deriving DecidableEq

/-- The `http.Response` fields this package reads: the numeric status code,
the status line text, and the body bytes. -/
structure Response : Type where
  statusCode : Nat
  status : String
  body : String
deriving DecidableEq

/-- The transport boundary: `http.Client.Do` together with the request
context, returning a response or a transport error. -/
def Transport : Type := Request → Except String Response

/-- Model of the `RequestOptions` struct. `client = none` models a nil
`*http.Client`; `headers` is the header map as an iteration sequence (a nil
and an empty Go map look the same to `range`); `query`/`body` hold the JSON
value the respective `interface\x7b\x7d` marshals to, or `none` when nil. -/
structure RequestOptions : Type where
  client : Option Transport
  method : String
  url : String
  headers : List (String × String)
  query : Option Json
  body : Option Json

/-- The zero `RequestOptions` value substituted for a nil options pointer. -/
def emptyOptions : RequestOptions :=
  { client := none, method := "", url := "", headers := [], query := none, body := none }

/-- Valid HTTP method per `net/http`: nonempty and made of token characters
(checked by `http.NewRequestWithContext`). -/
def validMethod (m : String) : Bool :=
  !(m = "") && m.data.all validHeaderFieldChar

/-- Model of `buildRequest`: serialize the body, create the request
(method check and URL parse from `http.NewRequestWithContext`, wrapped as a
creation failure), apply each header with `Header.Set`, and, when a query
value is present, serialize it and overwrite the URL's raw query. -/
def buildRequest (method url : String) (body : Option Json)
    (options : RequestOptions) : Except String Request :=
  let bodyReader := serializeToReader body
  if !(validMethod method) then
    Except.error "failed to create request: net/http: invalid method"
  else
    match parseURL url with
    | Except.error e => Except.error ("failed to create request: " ++ e)
    | Except.ok u =>
      let req : Request :=
        { method := method, url := u,
          headers := options.headers.foldl (fun hs kv => headerSet hs kv.1 kv.2) [],
          body := bodyReader }
      match options.query with
      | none => Except.ok req
      | some q =>
        match serializeToQueryString (some q) with
        | Except.error e => Except.error e
        | Except.ok qs =>
          Except.ok { req with url := { u with rawQuery := qs } }

/-- Model of `performRequest`: normalize a nil options pointer and a nil
client, build the request, submit it through the client, validate the
status, decode the body. The Go function returns the pair
`(*T, error)`; the model returns it literally, so each `return` site is one
constructor of the pair. -/
def performRequest {T : Type} (defaultClient : Transport)
    (decodeT : Json → Except String T) (method url : String) (body : Option Json)
    (options : Option RequestOptions) : Option T × Option String :=
  let opts := match options with | none => emptyOptions | some o => o
  let client := match opts.client with | none => defaultClient | some c => c
  match buildRequest method url body opts with
  | Except.error e => (none, some e)
  | Except.ok req =>
    match client req with
    | Except.error e => (none, some ("failed to execute request: " ++ e))
    | Except.ok resp =>
      if resp.statusCode < 200 || resp.statusCode ≥ 300 then
        (none, some ("request " ++ urlString req.url ++ " failed with status: " ++
          resp.status))
      else
        match goJsonDecode decodeT resp.body with
        | Except.error e => (none, some ("failed to decode response: " ++ e))
        | Except.ok result => (some result, none)

/-- Entry operation `Get`: forwards with verb GET and a nil body. -/
def Get {T : Type} (defaultClient : Transport) (decodeT : Json → Except String T)
    (url : String) (options : Option RequestOptions) : Option T × Option String :=
  performRequest defaultClient decodeT "GET" url none options

/-- Entry operation `Post`: forwards with verb POST and the explicit body. -/
def Post {T : Type} (defaultClient : Transport) (decodeT : Json → Except String T)
    (url : String) (body : Option Json) (options : Option RequestOptions) :
    Option T × Option String :=
  performRequest defaultClient decodeT "POST" url body options

/-- Entry operation `Put`: forwards with verb PUT and the explicit body. -/
def Put {T : Type} (defaultClient : Transport) (decodeT : Json → Except String T)
    (url : String) (body : Option Json) (options : Option RequestOptions) :
    Option T × Option String :=
  performRequest defaultClient decodeT "PUT" url body options

/-- Entry operation `Delete`: forwards with verb DELETE and a nil body. -/
def Delete {T : Type} (defaultClient : Transport) (decodeT : Json → Except String T)
    (url : String) (options : Option RequestOptions) : Option T × Option String :=
  performRequest defaultClient decodeT "DELETE" url none options

/-- Entry operation `Patch`: forwards with verb PATCH and the explicit body. -/
def Patch {T : Type} (defaultClient : Transport) (decodeT : Json → Except String T)
    (url : String) (body : Option Json) (options : Option RequestOptions) :
    Option T × Option String :=
  performRequest defaultClient decodeT "PATCH" url body options

/-- Concrete transport replying 404 to every request (witness input). -/
def wClient404 : Transport :=
  fun _ => Except.ok (Response.mk 404 "404 Not Found" "ignored")

/-- Concrete transport replying 200 with an empty body (witness input). -/
def wClient200Empty : Transport :=
  fun _ => Except.ok (Response.mk 200 "200 OK" "")

/-- Concrete transport replying 200 with body `null` (witness input). -/
def wClient200Null : Transport :=
  fun _ => Except.ok (Response.mk 200 "200 OK" "null")

/-- Concrete decode step for the result type `Nat` (witness input). -/
def wDecodeNat : Json → Except String Nat :=
  fun _ => Except.ok 7

end Httpx

open Httpx

/-! Helper lemmas about the string order and the insertion sort used by the
query-string encoder. -/

theorem charListLe_total (a b : List Char) :
    charListLe a b = true ∨ charListLe b a = true := by
  induction a generalizing b with
  | nil => left; rfl
  | cons x xs ih =>
    cases b with
    | nil => right; rfl
    | cons y ys =>
      by_cases hxy : x = y
      · subst hxy
        simpa [charListLe] using ih ys
      · rcases lt_or_gt_of_ne hxy with h | h
        · left; simp [charListLe, hxy, h]
        · right; simp [charListLe, Ne.symm hxy, h]

theorem charListLe_trans (a b c : List Char) (hab : charListLe a b = true)
    (hbc : charListLe b c = true) : charListLe a c = true := by
  induction a generalizing b c with
  | nil => rfl
  | cons x xs ih =>
    cases b with
    | nil => simp [charListLe] at hab
    | cons y ys =>
      cases c with
      | nil => simp [charListLe] at hbc
      | cons z zs =>
        simp only [charListLe] at hab hbc ⊢
        by_cases hxy : x = y
        · subst hxy
          by_cases hyz : x = z
          · subst hyz
            simp only [if_pos rfl] at hab hbc ⊢
            exact ih ys zs (by simpa using hab) (by simpa using hbc)
          · simp only [if_pos rfl] at hab
            simp only [if_neg hyz] at hbc ⊢
            exact hbc
        · by_cases hyz : y = z
          · subst hyz
            simp only [if_neg hxy] at hab ⊢
            exact hab
          · simp only [if_neg hxy] at hab
            simp only [if_neg hyz] at hbc
            have hlt : x < z := lt_trans (of_decide_eq_true hab) (of_decide_eq_true hbc)
            simp [ne_of_lt hlt, hlt]

theorem charListLe_antisymm (a b : List Char) (hab : charListLe a b = true)
    (hba : charListLe b a = true) : a = b := by
  induction a generalizing b with
  | nil =>
    cases b with
    | nil => rfl
    | cons y ys => simp [charListLe] at hba
  | cons x xs ih =>
    cases b with
    | nil => simp [charListLe] at hab
    | cons y ys =>
      simp only [charListLe] at hab hba
      by_cases hxy : x = y
      · subst hxy
        simp only [if_pos rfl] at hab hba
        rw [ih ys hab hba]
      · simp only [if_neg hxy, if_neg (Ne.symm hxy)] at hab hba
        exact absurd (of_decide_eq_true hba) (lt_asymm (of_decide_eq_true hab))

theorem strLe_total (a b : String) : strLe a b = true ∨ strLe b a = true :=
  charListLe_total a.data b.data

theorem strLe_trans (a b c : String) (hab : strLe a b = true)
    (hbc : strLe b c = true) : strLe a c = true :=
  charListLe_trans a.data b.data c.data hab hbc

theorem strLe_antisymm (a b : String) (hab : strLe a b = true)
    (hba : strLe b a = true) : a = b := by
  cases a with
  | mk da =>
    cases b with
    | mk db =>
      have : da = db := charListLe_antisymm da db hab hba
      rw [this]

theorem insertPair_perm {α : Type} (x : String × α) (l : List (String × α)) :
    (insertPair x l).Perm (x :: l) := by
  induction l with
  | nil => exact List.Perm.refl _
  | cons y ys ih =>
    cases hk : keyLe x y with
    | true => simp [insertPair, hk]
    | false =>
      simp only [insertPair, hk, Bool.false_eq_true, if_false]
      exact (ih.cons y).trans (List.Perm.swap x y ys)

theorem sortPairs_perm {α : Type} (l : List (String × α)) :
    (sortPairs l).Perm l := by
  induction l with
  | nil => exact List.Perm.refl _
  | cons x xs ih => exact (insertPair_perm x (sortPairs xs)).trans (ih.cons x)

theorem pairwise_insertPair {α : Type} (x : String × α) (l : List (String × α))
    (h : l.Pairwise (fun a b => keyLe a b = true)) :
    (insertPair x l).Pairwise (fun a b => keyLe a b = true) := by
  induction l with
  | nil => simp [insertPair]
  | cons y ys ih =>
    rw [List.pairwise_cons] at h
    cases hk : keyLe x y with
    | true =>
      simp only [insertPair, hk, if_true]
      rw [List.pairwise_cons]
      refine ⟨?_, List.pairwise_cons.mpr h⟩
      intro z hz
      rcases List.mem_cons.mp hz with rfl | hz2
      · exact hk
      · exact strLe_trans x.1 y.1 z.1 hk (h.1 z hz2)
    | false =>
      simp only [insertPair, hk, Bool.false_eq_true, if_false]
      rw [List.pairwise_cons]
      refine ⟨?_, ih h.2⟩
      intro z hz
      have hz2 : z ∈ x :: ys := (insertPair_perm x ys).mem_iff.mp hz
      have hyx : keyLe y x = true := by
        rcases strLe_total x.1 y.1 with htot | htot
        · exact absurd htot (by simp [keyLe] at hk; simp [keyLe, hk])
        · exact htot
      rcases List.mem_cons.mp hz2 with rfl | hz3
      · exact hyx
      · exact h.1 z hz3

theorem sortPairs_pairwise {α : Type} (l : List (String × α)) :
    (sortPairs l).Pairwise (fun a b => keyLe a b = true) := by
  induction l with
  | nil => simp [sortPairs]
  | cons x xs ih => exact pairwise_insertPair x (sortPairs xs) ih

theorem sortPairs_eq_of_perm {α : Type} (l1 l2 : List (String × α))
    (h12 : l1.Perm l2) (hnd : (l1.map Prod.fst).Nodup) :
    sortPairs l1 = sortPairs l2 := by
  have p1 := sortPairs_perm l1
  have p2 := sortPairs_perm l2
  have hperm : (sortPairs l1).Perm (sortPairs l2) := p1.trans (h12.trans p2.symm)
  have hndkeys1 : ((sortPairs l1).map Prod.fst).Nodup :=
    (List.Perm.nodup_iff (p1.map Prod.fst)).mpr hnd
  have hndkeys2 : ((sortPairs l2).map Prod.fst).Nodup :=
    (List.Perm.nodup_iff ((hperm.map Prod.fst).symm.trans
      ((List.Perm.map Prod.fst p1)))).mpr hnd
  have hpw1 : (sortPairs l1).Pairwise (fun a b => a.1 ≠ b.1) :=
    List.pairwise_map.mp hndkeys1
  have hpw2 : (sortPairs l2).Pairwise (fun a b => a.1 ≠ b.1) :=
    List.pairwise_map.mp hndkeys2
  have s1 : (sortPairs l1).Pairwise (fun a b => keyLe a b = true ∧ a.1 ≠ b.1) :=
    (sortPairs_pairwise l1).and hpw1
  have s2 : (sortPairs l2).Pairwise (fun a b => keyLe a b = true ∧ a.1 ≠ b.1) :=
    (sortPairs_pairwise l2).and hpw2
  exact @List.eq_of_perm_of_sorted _ (fun a b => keyLe a b = true ∧ a.1 ≠ b.1)
    ⟨fun a b hab hba => absurd (strLe_antisymm a.1 b.1 hab.1 hba.1) hab.2⟩
    _ _ hperm s1 s2

theorem dedupKeepLast_eq_self (l : List (String × Json))
    (hnd : (l.map Prod.fst).Nodup) : dedupKeepLast l = l := by
  induction l with
  | nil => rfl
  | cons a l ih =>
    obtain ⟨k, v⟩ := a
    have hk : k ∉ l.map Prod.fst := (List.nodup_cons.mp (by simpa using hnd)).1
    simp only [dedupKeepLast, if_neg hk]
    rw [ih (List.nodup_cons.mp (by simpa using hnd)).2]

theorem lookup_eq_some_of_mem {β : Type} (l : List (String × β)) (k : String) (v : β)
    (hnd : (l.map Prod.fst).Nodup) (hmem : (k, v) ∈ l) : l.lookup k = some v := by
  induction l with
  | nil => cases hmem
  | cons a l ih =>
    obtain ⟨k1, v1⟩ := a
    rcases List.mem_cons.mp hmem with heq | hmem2
    · obtain ⟨rfl, rfl⟩ := Prod.mk.injEq k1 v1 k v ▸ heq.symm
      simp [List.lookup]
    · by_cases hk : k = k1
      · subst hk
        have : k ∈ l.map Prod.fst := List.mem_map.mpr ⟨(k, v), hmem2, rfl⟩
        exact absurd this (List.nodup_cons.mp (by simpa using hnd)).1
      · have hbeq : (k == k1) = false := beq_eq_false_iff_ne.mpr hk
        simp only [List.lookup, hbeq]
        exact ih (List.nodup_cons.mp (by simpa using hnd)).2 hmem2

theorem mem_value_unique (l : List (String × Json)) (k : String) (v v2 : Json)
    (hnd : (l.map Prod.fst).Nodup) (h1 : (k, v) ∈ l) (h2 : (k, v2) ∈ l) : v = v2 := by
  have e1 := lookup_eq_some_of_mem l k v hnd h1
  have e2 := lookup_eq_some_of_mem l k v2 hnd h2
  exact Option.some.inj (e1.symm.trans e2)

theorem headerSet_append_of_not_mem (hs : List (String × String)) (k v : String)
    (h : (canonicalMIMEHeaderKey k) ∉ hs.map Prod.fst) :
    headerSet hs k v = hs ++ [(canonicalMIMEHeaderKey k, v)] := by
  unfold headerSet
  rw [if_neg]
  intro hany
  rcases List.any_eq_true.mp hany with ⟨kv, hkv, hbeq⟩
  exact h (List.mem_map.mpr ⟨kv, hkv, (beq_iff_eq.mp hbeq)⟩)

theorem foldl_headerSet_append (l acc : List (String × String))
    (hnd : ((acc ++ l.map (fun kv => (canonicalMIMEHeaderKey kv.1, kv.2))).map
      Prod.fst).Nodup) :
    l.foldl (fun hs kv => headerSet hs kv.1 kv.2) acc =
      acc ++ l.map (fun kv => (canonicalMIMEHeaderKey kv.1, kv.2)) := by
  induction l generalizing acc with
  | nil => simp
  | cons a l ih =>
    obtain ⟨k, v⟩ := a
    have hnd2 : ((acc ++ (canonicalMIMEHeaderKey k, v) ::
        l.map (fun kv => (canonicalMIMEHeaderKey kv.1, kv.2))).map Prod.fst).Nodup := by
      simpa using hnd
    have hmid : (canonicalMIMEHeaderKey k :: (acc ++
        l.map (fun kv => (canonicalMIMEHeaderKey kv.1, kv.2))).map Prod.fst).Nodup := by
      have := hnd2
      rw [List.map_append, List.map_cons] at this
      rw [List.map_append]
      exact List.nodup_middle.mp this
    have hnotacc : (canonicalMIMEHeaderKey k) ∉ acc.map Prod.fst := by
      have h1 := (List.nodup_cons.mp hmid).1
      intro hmem
      exact h1 (by rw [List.map_append]; exact List.mem_append_left _ hmem)
    simp only [List.foldl_cons]
    rw [headerSet_append_of_not_mem acc k v hnotacc]
    rw [ih (acc ++ [(canonicalMIMEHeaderKey k, v)]) (by simpa using hnd2)]
    simp

theorem lookup_append_right (hs : List (String × String)) (k : String) (v : String)
    (h : k ∉ hs.map Prod.fst) : (hs ++ [(k, v)]).lookup k = some v := by
  induction hs with
  | nil => simp [List.lookup]
  | cons a l ih =>
    obtain ⟨k1, v1⟩ := a
    have hk : k ≠ k1 := by
      intro heq
      exact h (by simp [heq])
    have hbeq : (k == k1) = false := beq_eq_false_iff_ne.mpr hk
    simp only [List.cons_append, List.lookup, hbeq]
    exact ih (fun hmem => h (by simp [hmem]))

theorem headerSet_lookup (hs : List (String × String)) (k v : String) :
    (headerSet hs k v).lookup (canonicalMIMEHeaderKey k) = some v := by
  unfold headerSet
  by_cases hany : hs.any (fun kv => kv.1 == canonicalMIMEHeaderKey k) = true
  · rw [if_pos hany]
    induction hs with
    | nil => simp at hany
    | cons a l ih =>
      obtain ⟨k1, v1⟩ := a
      by_cases hk : k1 = canonicalMIMEHeaderKey k
      · have hbeq : (k1 == canonicalMIMEHeaderKey k) = true := beq_iff_eq.mpr hk
        simp only [List.map_cons]
        rw [if_pos hbeq]
        simp [List.lookup]
      · have hbeq : (k1 == canonicalMIMEHeaderKey k) = false := beq_eq_false_iff_ne.mpr hk
        have hbeq2 : (canonicalMIMEHeaderKey k == k1) = false :=
          beq_eq_false_iff_ne.mpr (Ne.symm hk)
        have hany2 : l.any (fun kv => kv.1 == canonicalMIMEHeaderKey k) = true := by
          rcases List.any_eq_true.mp hany with ⟨kv, hkv, hb⟩
          rcases List.mem_cons.mp hkv with rfl | hkv2
          · exact absurd hb (by simp [hbeq])
          · exact List.any_eq_true.mpr ⟨kv, hkv2, hb⟩
        simp only [List.map_cons]
        rw [if_neg (by simp [hbeq])]
        simp only [List.lookup, hbeq2]
        exact ih hany2
  · rw [if_neg hany]
    apply lookup_append_right
    intro hmem
    rcases List.mem_map.mp hmem with ⟨kv, hkv, hfst⟩
    exact hany (List.any_eq_true.mpr ⟨kv, hkv, beq_iff_eq.mpr hfst⟩)

/-! Claim theorems. -/

/-- C5: for every call of any verb operation, the returned pair never holds
both a result and an error: on every failure path the result is nil, and on
success the error is nil, so the caller never sees a partial result. -/
theorem C5_no_partial_result {T : Type} (defaultClient : Transport)
    (decodeT : Json → Except String T) (method url : String) (body : Option Json)
    (options : Option RequestOptions) :
    (performRequest defaultClient decodeT method url body options).1 = none ∨
      (performRequest defaultClient decodeT method url body options).2 = none := by
  unfold performRequest
  cases hb : buildRequest method url body
      (match options with | none => emptyOptions | some o => o) with
  | error e => left; simp [hb]
  | ok req =>
    cases hc : (match (match options with
        | none => emptyOptions | some o => o).client with
      | none => defaultClient | some c => c) req with
    | error e => left; simp [hb, hc]
    | ok resp =>
      by_cases hs : (resp.statusCode < 200 || resp.statusCode ≥ 300) = true
      · left; simp [hb, hc, hs]
      · cases hd : goJsonDecode decodeT resp.body with
        | error e => left; simp [hb, hc, hs, hd]
        | ok r => right; simp [hb, hc, hs, hd]

/-- C1: whenever the transport returns a response whose status code lies
outside [200,300), the call fails with the status error built from the
request URL and the response's status text, for every decode step and
whatever the response body holds — the body is never decoded. -/
theorem C1_non2xx_status_error {T : Type} (defaultClient : Transport)
    (decodeT : Json → Except String T) (method url : String) (body : Option Json)
    (opts : RequestOptions) (req : Request) (resp : Response)
    (hbuild : buildRequest method url body opts = Except.ok req)
    (hresp : (match opts.client with | none => defaultClient | some c => c) req =
      Except.ok resp)
    (hstatus : resp.statusCode < 200 ∨ resp.statusCode ≥ 300) :
    performRequest defaultClient decodeT method url body (some opts) =
      (none, some ("request " ++ urlString req.url ++ " failed with status: " ++
        resp.status)) := by
  unfold performRequest
  have hcond : (resp.statusCode < 200 || resp.statusCode ≥ 300) = true := by
    rcases hstatus with h | h <;> simp [h]
  simp [hbuild, hresp, hcond]

/-- Witness for C1: a 404 response to a GET makes the call fail with the
status error for that URL and status text. -/
theorem C1_witness :
    performRequest wClient404 wDecodeNat "GET" "http://e/p" none
      (some emptyOptions) =
      (none, some "request http://e/p failed with status: 404 Not Found") :=
  C1_non2xx_status_error wClient404 wDecodeNat "GET" "http://e/p" none
    emptyOptions (Request.mk "GET" (URLm.mk "http://e/p" "" "") [] none)
    (Response.mk 404 "404 Not Found" "ignored") rfl rfl (Or.inr (by decide))

/-- C7: a 2xx response with an empty body makes the decode step fail with
the EOF decoding error — for every result type's decode step, so no value
is ever returned for an empty body. -/
theorem C7_empty_body_decode_error {T : Type} (defaultClient : Transport)
    (decodeT : Json → Except String T) (method url : String) (body : Option Json)
    (opts : RequestOptions) (req : Request) (resp : Response)
    (hbuild : buildRequest method url body opts = Except.ok req)
    (hresp : (match opts.client with | none => defaultClient | some c => c) req =
      Except.ok resp)
    (hstatus : 200 ≤ resp.statusCode ∧ resp.statusCode < 300)
    (hbody : resp.body = "") :
    performRequest defaultClient decodeT method url body (some opts) =
      (none, some "failed to decode response: EOF") := by
  unfold performRequest
  have hcond : (resp.statusCode < 200 || resp.statusCode ≥ 300) = false := by
    simp only [Bool.or_eq_false_iff, decide_eq_false_iff_not]
    exact ⟨Nat.not_lt.mpr hstatus.1, Nat.not_le.mpr hstatus.2⟩
  have hdec : goJsonDecode decodeT resp.body = Except.error "EOF" := by
    rw [hbody]; rfl
  simp [hbuild, hresp, hcond, hdec]

/-- Witness for C7: a 200 response with an empty body yields the EOF
decoding error. -/
theorem C7_witness :
    performRequest wClient200Empty wDecodeNat "GET" "http://e/p" none
      (some emptyOptions) = (none, some "failed to decode response: EOF") :=
  C7_empty_body_decode_error wClient200Empty wDecodeNat "GET" "http://e/p" none
    emptyOptions (Request.mk "GET" (URLm.mk "http://e/p" "" "") [] none)
    (Response.mk 200 "200 OK" "") rfl rfl (by decide) rfl

/-- Counterexample for C3: a config.query whose JSON serialization is
`null` (e.g. a typed nil pointer or nil slice) is not an object mapping,
yet the call does not fail with a query-serialization error: `null`
unmarshals into a nil map, the query string is empty, and the call
completes normally. -/
theorem C3_counterexample :
    serializeToQueryString (some Json.null) = Except.ok "" ∧
      performRequest wClient200Null wDecodeNat "GET" "http://e/p" none
        (some { emptyOptions with query := some Json.null }) = (some 7, none) :=
  ⟨rfl, rfl⟩

/-- C3 (amended): for every call whose config.query is present and
serializes to JSON that is neither an object mapping nor JSON null, request
construction fails with the query-serialization error — for every transport,
so no request is ever submitted. (A query serializing to JSON null instead
yields an empty query string and the call proceeds.) The method/URL
hypotheses say request creation itself does not fail first, which holds for
every verb entry point and well-formed URL. -/
theorem C3_amended_query_error {T : Type} (defaultClient : Transport)
    (decodeT : Json → Except String T) (method url : String) (body : Option Json)
    (opts : RequestOptions) (q : Json)
    (hmethod : validMethod method = true)
    (hurl : containsCtlChar url = false)
    (hq : opts.query = some q)
    (hnotobj : ∀ fs, q ≠ Json.obj fs)
    (hnotnull : q ≠ Json.null) :
    performRequest defaultClient decodeT method url body (some opts) =
      (none, some ("failed to unmarshal query: json: cannot unmarshal " ++
        jsonUnmarshalKind q ++ " into Go value of type map[string]interface \x7b\x7d")) := by
  have hser : serializeToQueryString (some q) =
      Except.error ("failed to unmarshal query: json: cannot unmarshal " ++
        jsonUnmarshalKind q ++ " into Go value of type map[string]interface \x7b\x7d") := by
    cases q with
    | null => exact absurd rfl hnotnull
    | obj fs => exact absurd rfl (hnotobj fs)
    | bool b => rfl
    | num n => rfl
    | str s => rfl
    | arr xs => rfl
  have hparse : ∃ u, parseURL url = Except.ok u := by
    unfold parseURL
    rw [if_neg (by simp [hurl])]
    exact ⟨_, rfl⟩
  obtain ⟨u, hu⟩ := hparse
  have hbuild : buildRequest method url body opts =
      Except.error ("failed to unmarshal query: json: cannot unmarshal " ++
        jsonUnmarshalKind q ++ " into Go value of type map[string]interface \x7b\x7d") := by
    unfold buildRequest
    rw [if_neg (by simp [hmethod])]
    simp only [hu, hq, hser]
  unfold performRequest
  simp [hbuild]

/-- Witness for C3 (amended): a query serializing to the JSON array [1,2]
fails with the query-serialization error for arrays. -/
theorem C3_amended_witness :
    performRequest wClient200Null wDecodeNat "GET" "http://e/p" none
      (some { emptyOptions with query := some (Json.arr [Json.num 1, Json.num 2]) }) =
      (none, some ("failed to unmarshal query: json: cannot unmarshal array" ++
        " into Go value of type map[string]interface \x7b\x7d")) :=
  C3_amended_query_error wClient200Null wDecodeNat "GET" "http://e/p" none
    { emptyOptions with query := some (Json.arr [Json.num 1, Json.num 2]) }
    (Json.arr [Json.num 1, Json.num 2]) rfl rfl rfl
    (fun _ h => Json.noConfusion h) (fun h => Json.noConfusion h)

/-- C4: the verb of the outbound request is the method argument of the
entry operation — each verb function forwards its fixed verb — and the
`Method` field stored in the options is never consulted: changing it cannot
change the outcome of any call. -/
theorem C4_verb_from_entry_operation :
    (∀ (m url : String) (body : Option Json) (opts : RequestOptions) (req : Request),
        buildRequest m url body opts = Except.ok req → req.method = m)
    ∧ (∀ (T : Type) (df : Transport) (dec : Json → Except String T) (m url : String)
        (body : Option Json) (opts : RequestOptions) (m1 m2 : String),
        performRequest df dec m url body (some { opts with method := m1 }) =
          performRequest df dec m url body (some { opts with method := m2 }))
    ∧ (∀ (T : Type) (df : Transport) (dec : Json → Except String T) (url : String)
        (opts : Option RequestOptions),
        Get df dec url opts = performRequest df dec "GET" url none opts)
    ∧ (∀ (T : Type) (df : Transport) (dec : Json → Except String T) (url : String)
        (body : Option Json) (opts : Option RequestOptions),
        Post df dec url body opts = performRequest df dec "POST" url body opts)
    ∧ (∀ (T : Type) (df : Transport) (dec : Json → Except String T) (url : String)
        (body : Option Json) (opts : Option RequestOptions),
        Put df dec url body opts = performRequest df dec "PUT" url body opts)
    ∧ (∀ (T : Type) (df : Transport) (dec : Json → Except String T) (url : String)
        (opts : Option RequestOptions),
        Delete df dec url opts = performRequest df dec "DELETE" url none opts)
    ∧ (∀ (T : Type) (df : Transport) (dec : Json → Except String T) (url : String)
        (body : Option Json) (opts : Option RequestOptions),
        Patch df dec url body opts = performRequest df dec "PATCH" url body opts) := by
  refine ⟨?_, ?_, ?_, ?_, ?_, ?_, ?_⟩
  · intro m url body opts req h
    unfold buildRequest at h
    by_cases hv : (!(validMethod m)) = true
    · rw [if_pos hv] at h; cases h
    · rw [if_neg hv] at h
      cases hp : parseURL url with
      | error e => rw [hp] at h; cases h
      | ok u =>
        simp only [hp] at h
        cases hq : opts.query with
        | none =>
          simp only [hq] at h
          obtain rfl := Except.ok.inj h
          rfl
        | some q =>
          simp only [hq] at h
          cases hs : serializeToQueryString (some q) with
          | error e => rw [hs] at h; cases h
          | ok qs =>
            simp only [hs] at h
            obtain rfl := Except.ok.inj h
            rfl
  · intro T df dec m url body opts m1 m2
    rfl
  · intro T df dec url opts; rfl
  · intro T df dec url body opts; rfl
  · intro T df dec url body opts; rfl
  · intro T df dec url opts; rfl
  · intro T df dec url body opts; rfl

/-- Witness for C4: the request built for a GET call carries method GET. -/
theorem C4_witness :
    (Request.mk "GET" (URLm.mk "http://e/" "" "") [] none).method = "GET" :=
  C4_verb_from_entry_operation.1 "GET" "http://e/" none emptyOptions
    (Request.mk "GET" (URLm.mk "http://e/" "" "") [] none) rfl

/-- C8: the `Body` field of the options is never read — two calls identical
except for that field build the same request and return the same result —
and the entity body comes only from the explicit body argument, so it is
absent whenever that argument is nil, which is what `Get` and `Delete`
always pass. -/
theorem C8_config_body_never_read :
    (∀ (m url : String) (body : Option Json) (opts : RequestOptions)
        (b1 b2 : Option Json),
        buildRequest m url body { opts with body := b1 } =
          buildRequest m url body { opts with body := b2 })
    ∧ (∀ (T : Type) (df : Transport) (dec : Json → Except String T) (m url : String)
        (body : Option Json) (opts : RequestOptions) (b1 b2 : Option Json),
        performRequest df dec m url body (some { opts with body := b1 }) =
          performRequest df dec m url body (some { opts with body := b2 }))
    ∧ (∀ (m url : String) (opts : RequestOptions) (req : Request),
        buildRequest m url none opts = Except.ok req → req.body = none)
    ∧ (∀ (T : Type) (df : Transport) (dec : Json → Except String T) (url : String)
        (opts : Option RequestOptions),
        Get df dec url opts = performRequest df dec "GET" url none opts)
    ∧ (∀ (T : Type) (df : Transport) (dec : Json → Except String T) (url : String)
        (opts : Option RequestOptions),
        Delete df dec url opts = performRequest df dec "DELETE" url none opts) := by
  refine ⟨?_, ?_, ?_, ?_, ?_⟩
  · intro m url body opts b1 b2; rfl
  · intro T df dec m url body opts b1 b2; rfl
  · intro m url opts req h
    unfold buildRequest at h
    by_cases hv : (!(validMethod m)) = true
    · rw [if_pos hv] at h; cases h
    · rw [if_neg hv] at h
      cases hp : parseURL url with
      | error e => rw [hp] at h; cases h
      | ok u =>
        simp only [hp] at h
        cases hq : opts.query with
        | none =>
          simp only [hq] at h
          obtain rfl := Except.ok.inj h
          rfl
        | some q =>
          simp only [hq] at h
          cases hs : serializeToQueryString (some q) with
          | error e => rw [hs] at h; cases h
          | ok qs =>
            simp only [hs] at h
            obtain rfl := Except.ok.inj h
            rfl
  · intro T df dec url opts; rfl
  · intro T df dec url opts; rfl

/-- Witness for C8: the request built for a nil body carries no entity
body. -/
theorem C8_witness :
    (Request.mk "GET" (URLm.mk "http://e/" "" "") [] none).body = none :=
  C8_config_body_never_read.2.2.1 "GET" "http://e/" emptyOptions
    (Request.mk "GET" (URLm.mk "http://e/" "" "") [] none) rfl

/-- C9: when config.query is present and serializes successfully, the raw
query of the built request's URL is exactly the serialized query string —
whatever query component the caller's URL string already carried is
replaced, not appended to. -/
theorem C9_query_component_replaced (m url : String) (body : Option Json)
    (opts : RequestOptions) (q : Json) (qs : String) (req : Request)
    (hq : opts.query = some q)
    (hser : serializeToQueryString (some q) = Except.ok qs)
    (hbuild : buildRequest m url body opts = Except.ok req) :
    req.url.rawQuery = qs := by
  unfold buildRequest at hbuild
  by_cases hv : (!(validMethod m)) = true
  · rw [if_pos hv] at hbuild; cases hbuild
  · rw [if_neg hv] at hbuild
    cases hp : parseURL url with
    | error e => rw [hp] at hbuild; cases hbuild
    | ok u =>
      simp only [hp, hq, hser] at hbuild
      obtain rfl := Except.ok.inj hbuild
      rfl

/-- Witness for C9: a URL carrying `?old=1` ends up with raw query `a=2`
when the query object is `\x7b"a": 2\x7d`. -/
theorem C9_witness :
    (Request.mk "GET" (URLm.mk "http://e/p" "a=2" "") [] none).url.rawQuery = "a=2" :=
  C9_query_component_replaced "GET" "http://e/p?old=1" none
    { emptyOptions with query := some (Json.obj [("a", Json.num 2)]) }
    (Json.obj [("a", Json.num 2)]) "a=2"
    (Request.mk "GET" (URLm.mk "http://e/p" "a=2" "") [] none) rfl rfl rfl

/-- C2: the query object \x7b"a": 1, "b": null, "c": "x"\x7d encodes to
exactly `a=1&c=x` — no pair for `b` — and in general a key held at null in
a query object (unique keys, as a Go map has) contributes no pair to the
encoded query. -/
theorem C2_null_values_omitted :
    (serializeToQueryString (some (Json.obj
        [("a", Json.num 1), ("b", Json.null), ("c", Json.str "x")])) =
      Except.ok "a=1&c=x")
    ∧ (∀ (fields : List (String × Json)) (k : String),
        (fields.map Prod.fst).Nodup → (k, Json.null) ∈ fields →
        k ∉ (queryPairs fields).map Prod.fst) := by
  refine ⟨rfl, ?_⟩
  intro fields k hnd hmem hk
  unfold queryPairs at hk
  rw [dedupKeepLast_eq_self fields hnd] at hk
  have hk2 : k ∈ ((fields.filter (fun kv => !(kv.2.isNull))).map
      (fun kv => (kv.1, jsonSprint kv.2))).map Prod.fst :=
    (List.Perm.mem_iff ((sortPairs_perm _).map Prod.fst)).mp hk
  rw [List.map_map] at hk2
  obtain ⟨kv, hkvmem, hfst⟩ := List.mem_map.mp hk2
  obtain ⟨hmem2, hflt⟩ := List.mem_filter.mp hkvmem
  obtain ⟨k1, v1⟩ := kv
  have hk1 : k1 = k := hfst
  subst hk1
  have hval : v1 = Json.null := mem_value_unique fields k1 v1 Json.null hnd hmem2 hmem
  rw [hval] at hflt
  simp [Json.isNull] at hflt

/-- Witness for C2: no pair for the null-valued key `b` appears in the
encoded pairs of that query object. -/
theorem C2_witness :
    "b" ∉ (queryPairs
      [("a", Json.num 1), ("b", Json.null), ("c", Json.str "x")]).map Prod.fst :=
  C2_null_values_omitted.2
    [("a", Json.num 1), ("b", Json.null), ("c", Json.str "x")] "b"
    (by decide) (List.mem_cons_of_mem _ (List.mem_cons_self _ _))

/-- Counterexample for C6: the header entry `x-test` is not applied under
its exact key — `http.Header.Set` canonicalizes it to `X-Test`, so the
built request holds no entry with the original key. -/
theorem C6_counterexample :
    buildRequest "GET" "http://e/" none
        { emptyOptions with headers := [("x-test", "v")] } =
      Except.ok (Request.mk "GET" (URLm.mk "http://e/" "" "") [("X-Test", "v")] none)
    ∧ ("x-test", "v") ∉ [(("X-Test" : String), ("v" : String))] :=
  ⟨rfl, by decide⟩

/-- C6 (amended): every header entry of the options is applied to the
outbound request under its MIME-canonical key (for entries whose canonical
keys do not collide), and setting a header overwrites any previously held
entry with the same canonical key. -/
theorem C6_amended_headers_canonicalized :
    (∀ (m url : String) (body : Option Json) (opts : RequestOptions) (req : Request)
        (k v : String),
        (opts.headers.map (fun kv => canonicalMIMEHeaderKey kv.1)).Nodup →
        (k, v) ∈ opts.headers →
        buildRequest m url body opts = Except.ok req →
        req.headers.lookup (canonicalMIMEHeaderKey k) = some v)
    ∧ (∀ (hs : List (String × String)) (k v : String),
        (headerSet hs k v).lookup (canonicalMIMEHeaderKey k) = some v) := by
  refine ⟨?_, headerSet_lookup⟩
  intro m url body opts req k v hnd hmem hbuild
  have hndm : (((opts.headers.map
      (fun kv => (canonicalMIMEHeaderKey kv.1, kv.2))).map Prod.fst)).Nodup := by
    rw [List.map_map]
    exact hnd
  have hfold : opts.headers.foldl (fun hs kv => headerSet hs kv.1 kv.2) [] =
      opts.headers.map (fun kv => (canonicalMIMEHeaderKey kv.1, kv.2)) := by
    have := foldl_headerSet_append opts.headers []
    simpa using this (by simpa using hndm)
  have hreq : req.headers =
      opts.headers.map (fun kv => (canonicalMIMEHeaderKey kv.1, kv.2)) := by
    unfold buildRequest at hbuild
    by_cases hv : (!(validMethod m)) = true
    · rw [if_pos hv] at hbuild; cases hbuild
    · rw [if_neg hv] at hbuild
      cases hp : parseURL url with
      | error e => rw [hp] at hbuild; cases hbuild
      | ok u =>
        simp only [hp] at hbuild
        cases hq : opts.query with
        | none =>
          simp only [hq] at hbuild
          obtain rfl := Except.ok.inj hbuild
          exact hfold
        | some q =>
          simp only [hq] at hbuild
          cases hs : serializeToQueryString (some q) with
          | error e => rw [hs] at hbuild; cases hbuild
          | ok qs =>
            simp only [hs] at hbuild
            obtain rfl := Except.ok.inj hbuild
            exact hfold
  rw [hreq]
  exact lookup_eq_some_of_mem _ _ _ hndm (List.mem_map.mpr ⟨(k, v), hmem, rfl⟩)

/-- Witness for C6 (amended): the single entry `x-test` is found under its
canonical key `X-Test` with its value in the built request. -/
theorem C6_amended_witness :
    (Request.mk "GET" (URLm.mk "http://e/" "" "") [("X-Test", "v")] none).headers.lookup
      (canonicalMIMEHeaderKey "x-test") = some "v" :=
  C6_amended_headers_canonicalized.1 "GET" "http://e/" none
    { emptyOptions with headers := [("x-test", "v")] }
    (Request.mk "GET" (URLm.mk "http://e/" "" "") [("X-Test", "v")] none)
    "x-test" "v" (by decide) (List.mem_cons_self _ _) rfl

/-- C10: the encoded query string of a query object with unique keys is
deterministic — it does not depend on the order in which the map's entries
are visited — and its pairs are emitted in sorted key order. -/
theorem C10_encoding_deterministic_sorted (f1 f2 : List (String × Json))
    (hperm : f1.Perm f2) (hnd : (f1.map Prod.fst).Nodup) :
    serializeToQueryString (some (Json.obj f1)) =
      serializeToQueryString (some (Json.obj f2))
    ∧ ((queryPairs f1).map Prod.fst).Pairwise (fun a b => strLe a b = true) := by
  have hnd2 : (f2.map Prod.fst).Nodup := (hperm.map Prod.fst).nodup_iff.mp hnd
  have hq : queryPairs f1 = queryPairs f2 := by
    unfold queryPairs
    rw [dedupKeepLast_eq_self f1 hnd, dedupKeepLast_eq_self f2 hnd2]
    apply sortPairs_eq_of_perm
    · exact (hperm.filter _).map _
    · rw [List.map_map]
      have hsub : List.Sublist ((f1.filter (fun kv => !(kv.2.isNull))).map Prod.fst)
          (f1.map Prod.fst) := (List.filter_sublist f1).map Prod.fst
      exact (List.Nodup.sublist hsub hnd : _)
  constructor
  · show Except.ok (encodePairs (queryPairs f1)) =
      Except.ok (encodePairs (queryPairs f2))
    rw [hq]
  · unfold queryPairs
    rw [List.pairwise_map]
    exact sortPairs_pairwise _

/-- Witness for C10: two enumeration orders of the same two-key query
object encode to the same string, with keys in sorted order. -/
theorem C10_witness :
    serializeToQueryString (some (Json.obj [("b", Json.num 2), ("a", Json.num 1)])) =
      serializeToQueryString (some (Json.obj [("a", Json.num 1), ("b", Json.num 2)]))
    ∧ ((queryPairs [("b", Json.num 2), ("a", Json.num 1)]).map Prod.fst).Pairwise
        (fun a b => strLe a b = true) :=
  C10_encoding_deterministic_sorted
    [("b", Json.num 2), ("a", Json.num 1)] [("a", Json.num 1), ("b", Json.num 2)]
    (List.Perm.swap _ _ _) (by decide)
